import Mathlib

/-!
Verification of the attachment-fetching pass of a chat-export repackaging tool
(source: `cmd/fetch_attachments.go`).

The program copies every entry of an input zip archive into an output archive,
detects channel-message JSON entries by name shape, parses them into posts,
and for each file descriptor of a post resolves the attachment bytes (HTTP
download with a local-directory fallback) into a synthetic output entry
`__uploads/<id>/<name>`.

The embedding below is a shallow, executable model: strings are `List Char`,
file bodies are `List Nat` (byte values), and the external world (HTTP
responses, the local attachments directory, the JSON decoder, whether closing
the output archive fails) is an explicit `Env` record.  The zip writer is a
list of `(name, bytes)` entries appended in program order.
-/

set_option autoImplicit false

namespace SlackExport

/-- Strings of the model (Go `string`), as lists of characters. -/
abbrev Str := List Char

/-- File contents (Go `[]byte`), as lists of byte values. -/
abbrev Bytes := List Nat

/-- One output-archive (or input-archive) entry: name and contents. -/
abbrev Entry := Str × Bytes

/-- A Slack file descriptor.  Modelled from the spec: the `SlackFile` struct
is declared outside the provided source tree; the spec gives its shape as
`{id, name, url_private, url_private_download}`, matching the field accesses
`file.Id`, `file.Name`, `file.UrlPrivate`, `file.UrlPrivateDownload` in
`fetch_attachments.go`. -/
structure SlackFile where
  id : Str
  name : Str
  urlPrivate : Str
  urlPrivateDownload : Str
deriving DecidableEq, Repr

/-- A Slack post.  Modelled from the spec: the `SlackPost` struct is declared
outside the provided source tree; the spec gives timestamp, subtype, an
optional legacy single file object and an optional plural files array,
matching the accesses `post.Ts`, `post.Subtype`, `post.File`, `post.Files`
(both nullable) in `fetch_attachments.go`. -/
structure SlackPost where
  ts : Str
  subtype : Str
  file : Option SlackFile
  files : Option (List SlackFile)
deriving DecidableEq, Repr

/-- Events the program logs; each constructor mirrors one `log.Print` /
`fmt.Printf` call site in `fetch_attachments.go`, keeping the data that the
message interpolates. -/
inductive LogMsg where
  | noFileProp (ts : Str)
  | missingProps (ts : Str)
  | downloaded (id : Str)
  | usedLocal (id : Str)
  | openLocalFailed (nm : Str)
  | downloadFailedNoLocal (url : Str)
  | closeFailed
deriving DecidableEq, Repr

/-- The external world the program interacts with.
`http url` is `none` on a network error and `some (status, body)` otherwise;
`localDir` is `none` when `--attachments-dir` is unset (the empty string) and
otherwise the directory listing as `(file name, contents)` pairs in listing
order; `parse` is the JSON decoder for a channel file's bytes (`none` on
malformed JSON); `closeFails` says whether closing the output archive's zip
writer returns an error. -/
structure Env where
  http : Str → Option (Nat × Bytes)
  localDir : Option (List (Str × Bytes))
  token : Str
  parse : Bytes → Option (List SlackPost)
  closeFails : Bool

/-- `findLocalAttachment` from the source: error when no directory is
configured, otherwise the first directory entry whose name starts with
`fileID` (`strings.HasPrefix(f.Name(), fileID)`); error when none matches.
Errors are `none`. -/
def findLocalAttachment (fileID : Str) (dir : Option (List (Str × Bytes))) : Option Str :=
  match dir with
  | none => none
  | some files =>
    match files.find? (fun f => List.isPrefixOf fileID f.1) with
    | some f => some f.1
    | none => none

/-- Reading the bytes of a local file by name (`os.Open` + `io.Copy` on the
path returned by `findLocalAttachment`). -/
def lookupLocal (nm : Str) (dir : Option (List (Str × Bytes))) : Option Bytes :=
  match dir with
  | none => none
  | some files =>
    match files.find? (fun f => f.1 == nm) with
    | some f => some f.2
    | none => none

/-- Go's POSIX character class `[[:space:][:punct:]]` over ASCII: whitespace
(TAB, LF, VT, FF, CR, space) or punctuation (33-47, 58-64, 91-96, 123-126). -/
def isSpaceOrPunct (c : Char) : Bool :=
  let n := c.toNat
  (n == 9) || (n == 10) || (n == 11) || (n == 12) || (n == 13) || (n == 32) ||
  (33 ≤ n && n ≤ 47) || (58 ≤ n && n ≤ 64) || (91 ≤ n && n ≤ 96) || (123 ≤ n && n ≤ 126)

/-- `filepath.Ext`: the suffix beginning at the final dot, empty when the
name has no dot. -/
def extOf (nm : Str) : Str :=
  if '.' ∈ nm then '.' :: (nm.reverse.takeWhile (fun c => !(c == '.'))).reverse else []

/-- `strings.TrimSuffix`: remove `suf` when it is a suffix, else unchanged. -/
def trimSuffixL (s suf : Str) : Str :=
  if List.isSuffixOf suf s then s.take (s.length - suf.length) else s

/-- Stripping a leading `<id>-` from a local file's base name (source lines
146-149). -/
def stripIdDash (fileID localName : Str) : Str :=
  if List.isPrefixOf (fileID ++ ['-']) localName then localName.drop (fileID ++ ['-']).length
  else localName

/-- Display-name derivation from a matched local file name (source lines
144-156): take the base name, strip a leading `<id>-`, replace every
whitespace or punctuation character outside the extension with `_`, reattach
the extension.  (`regexp.ReplaceAllString` with a one-character class
replaces each matching character individually.) -/
def deriveName (fileID localName : Str) : Str :=
  ((trimSuffixL (stripIdDash fileID localName) (extOf (stripIdDash fileID localName))).map
    (fun c => if isSpaceOrPunct c then '_' else c)) ++ extOf (stripIdDash fileID localName)

/-- Step 1 of descriptor processing (source lines 139-159): the local lookup
runs only when the descriptor has a non-empty id and a directory is
configured; `some nm` plays the role of a non-empty `localFilePath`. -/
def foundLocal (env : Env) (f : SlackFile) : Option Str :=
  if f.id.length > 0 && env.localDir.isSome then findLocalAttachment f.id env.localDir
  else none

/-- The descriptor after the local-lookup step: when a local file was found
and the display name is empty, the name is derived from the local file name;
otherwise the descriptor is unchanged. -/
def resolveFile (env : Env) (f : SlackFile) : SlackFile :=
  match foundLocal env f with
  | some nm => if f.name.length < 1 then { f with name := deriveName f.id nm } else f
  | none => f

/-- The skip test of source lines 162-168: with no local path, the descriptor
must have an id, a name, and at least one URL. -/
def skipsFile (env : Env) (f : SlackFile) : Bool :=
  (foundLocal env f).isNone &&
    ((resolveFile env f).id.length < 1 || (resolveFile env f).name.length < 1 ||
      !((resolveFile env f).urlPrivate.length > 0 ||
        (resolveFile env f).urlPrivateDownload.length > 0))

/-- Download-URL choice (source lines 170-176): the download variant when
non-empty, else the plain private URL. -/
def chooseUrl (f : SlackFile) : Str :=
  if f.urlPrivateDownload.length > 0 then f.urlPrivateDownload else f.urlPrivate

/-- Destination path of an attachment (source line 179). -/
def destPath (f : SlackFile) : Str :=
  "__uploads/".data ++ f.id ++ "/".data ++ f.name

/-- Outcome of processing descriptors / posts: entries appended to the output
archive, log events, and the URLs actually requested over HTTP. -/
structure FileOutcome where
  entries : List Entry
  logs : List LogMsg
  reqs : List Str
deriving DecidableEq, Repr

def emptyOutcome : FileOutcome := ⟨[], [], []⟩

def mergeOutcome (a b : FileOutcome) : FileOutcome :=
  ⟨a.entries ++ b.entries, a.logs ++ b.logs, a.reqs ++ b.reqs⟩

/-- The bytes the local-fallback path writes into the destination entry:
the matched local file's contents, or nothing (the entry stays empty) when
no local file matches. -/
def fallbackBytes (env : Env) (fileID : Str) : Bytes :=
  match findLocalAttachment fileID env.localDir with
  | some nm => (lookupLocal nm env.localDir).getD []
  | none => []

/-- The fallback of source lines 200-218, entered on a network error or a
non-200 status after the destination entry was already created: re-resolve
the id locally and copy the local bytes; on failure the entry stays empty. -/
def localFallback (env : Env) (f1 : SlackFile) (url : Str) : FileOutcome :=
  match findLocalAttachment f1.id env.localDir with
  | some nm =>
    match lookupLocal nm env.localDir with
    | some bytes => ⟨[(destPath f1, bytes)], [.usedLocal f1.id], [url]⟩
    | none => ⟨[(destPath f1, [])], [.openLocalFailed nm], [url]⟩
  | none => ⟨[(destPath f1, [])], [.downloadFailedNoLocal url], [url]⟩

/-- Processing of one file descriptor (the body of the inner loop, source
lines 136-229): local lookup and name derivation, the skip test, URL choice,
entry creation, download, and the local fallback. -/
def processFile (env : Env) (ts : Str) (f : SlackFile) : FileOutcome :=
  if skipsFile env f then ⟨[], [.missingProps ts], []⟩
  else
    match env.http (chooseUrl (resolveFile env f)) with
    | some (status, body) =>
      if status == 200 then
        ⟨[(destPath (resolveFile env f), body)],
         [.downloaded (resolveFile env f).id], [chooseUrl (resolveFile env f)]⟩
      else localFallback env (resolveFile env f) (chooseUrl (resolveFile env f))
    | none => localFallback env (resolveFile env f) (chooseUrl (resolveFile env f))

/-- Descriptors of one post, in order. -/
def processFiles (env : Env) (ts : Str) : List SlackFile → FileOutcome
  | [] => emptyOutcome
  | f :: rest => mergeOutcome (processFile env ts f) (processFiles env ts rest)

/-- Processing of one post (source lines 115-131): a `file_share` post with a
legacy file object has its files array replaced by that single object; a
`file_share` post without one is skipped with a warning; a post with a nil
files array is skipped silently. -/
def processPost (env : Env) (post : SlackPost) : FileOutcome :=
  if post.subtype = "file_share".data then
    match post.file with
    | none => ⟨[], [.noFileProp post.ts], []⟩
    | some f => processFiles env post.ts [f]
  else
    match post.files with
    | none => emptyOutcome
    | some fs => processFiles env post.ts fs

def processPosts (env : Env) : List SlackPost → FileOutcome
  | [] => emptyOutcome
  | p :: rest => mergeOutcome (processPost env p) (processPosts env rest)

/-- `processChannelFile` (source lines 105-233): `none` models the error
return on malformed JSON; every other path logs and continues. -/
def processChannelFile (env : Env) (inBuf : Bytes) : Option FileOutcome :=
  match env.parse inBuf with
  | none => none
  | some posts => some (processPosts env posts)

/-- `strings.Split(name, "/")`. -/
def splitSlash : Str → List Str
  | [] => [[]]
  | c :: rest =>
    if c = '/' then [] :: splitSlash rest
    else
      match splitSlash rest with
      | [] => [[c]]
      | s :: ss => (c :: s) :: ss

/-- The channel-file test of source line 86: exactly two `/`-separated
segments, the first not starting with `__`, the second ending in `.json`. -/
def isChannelFile (nm : Str) : Bool :=
  match splitSlash nm with
  | [a, b] => !(List.isPrefixOf "__".data a) && List.isSuffixOf ".json".data b
  | _ => false

/-- Accumulated run state: output-archive entries in creation order, log
events, requested URLs, and the names of entries handed to
`processChannelFile`. -/
structure RunState where
  entries : List Entry
  logs : List LogMsg
  reqs : List Str
  parsed : List Str
deriving DecidableEq, Repr

/-- Result of a run: `ok` models `return nil` (exit code 0), `fatal` models
`os.Exit(1)` with the state reached at that point. -/
inductive RunResult where
  | ok (s : RunState)
  | fatal (s : RunState)
deriving DecidableEq, Repr

def RunResult.state : RunResult → RunState
  | .ok s => s
  | .fatal s => s

def initState : RunState := ⟨[], [], [], []⟩

/-- The main loop of `fetchAttachments` (source lines 57-94): copy each input
entry verbatim, and for channel files run `processChannelFile`; its error
(malformed JSON) is fatal via `os.Exit(1)`. -/
def runFetch (env : Env) : List Entry → RunState → RunResult
  | [], s => .ok s
  | (nm, bytes) :: rest, s =>
    if isChannelFile nm then
      match processChannelFile env bytes with
      | none => .fatal ⟨s.entries ++ [(nm, bytes)], s.logs, s.reqs, s.parsed ++ [nm]⟩
      | some out =>
        runFetch env rest
          ⟨s.entries ++ [(nm, bytes)] ++ out.entries, s.logs ++ out.logs,
           s.reqs ++ out.reqs, s.parsed ++ [nm]⟩
    else runFetch env rest ⟨s.entries ++ [(nm, bytes)], s.logs, s.reqs, s.parsed⟩

/-- `fetchAttachments` given an already-opened input archive: the copy /
process loop, then `w.Close()`, whose failure is only logged (source lines
96-102) before `return nil`. -/
def fetchAttachments (env : Env) (input : List Entry) : RunResult :=
  match runFetch env input initState with
  | .fatal s => .fatal s
  | .ok s => .ok (if env.closeFails then { s with logs := s.logs ++ [.closeFailed] } else s)

/-- Process exit code of a run result. -/
def exitCode : RunResult → Nat
  | .ok _ => 0
  | .fatal _ => 1

/-- The download step failed: network error or a non-200 status. -/
def httpFailed (env : Env) (url : Str) : Prop :=
  env.http url = none ∨ ∃ st body, env.http url = some (st, body) ∧ st ≠ 200

/-- A world where every download fails, no local directory is configured and
every channel file is malformed. -/
def envBad : Env := ⟨fun _ => none, none, [], fun _ => none, false⟩

/-- Two entries: a channel file (with bytes `envBad` cannot parse) followed by
an opaque entry. -/
def inputBad : List Entry := [("a/b.json".data, [0]), ("c".data, [1])]

/-- A world where every channel file parses as an empty post list. -/
def envOkW : Env := ⟨fun _ => none, none, [], fun _ => some [], false⟩

/-- A channel file and an opaque entry. -/
def inputW : List Entry := [("general/a.json".data, [2]), ("c".data, [3])]

/-- The final state of running `envOkW` over `inputW`. -/
def stateW : RunState := (fetchAttachments envOkW inputW).state

/-- A local attachments directory holding one file for id `F1`. -/
def dirA : List (Str × Bytes) := [("F1-pic one.png".data, [7, 8])]

/-- A world whose downloads all yield status 500 and whose local directory is
`dirA`. -/
def envA : Env := ⟨fun _ => some (500, [9]), some dirA, [], fun _ => none, false⟩

/-- A descriptor with id `F1`, a display name and both URLs. -/
def fileA : SlackFile := ⟨"F1".data, "n.png".data, "u".data, "d".data⟩

/-- A local directory whose one file name contains spaces and punctuation. -/
def dirB : List (Str × Bytes) := [("F1-My File!!.png".data, [7, 8])]

/-- A world with local directory `dirB` and failing downloads. -/
def envB : Env := ⟨fun _ => none, some dirB, [], fun _ => none, false⟩

/-- A descriptor with id `F1` and an empty display name. -/
def fileB : SlackFile := ⟨"F1".data, [], "u".data, "d".data⟩

/-- A descriptor with a non-empty id but no name and no URLs. -/
def fileC : SlackFile := ⟨"F2".data, [], [], []⟩

/-- A descriptor with both URL fields populated. -/
def fileD : SlackFile := ⟨"F3".data, "d.png".data, "priv".data, "dl".data⟩

/-- A descriptor with only the plain private URL populated. -/
def fileE : SlackFile := ⟨"F4".data, "e.png".data, "priv".data, []⟩

/-- A legacy `file_share` post carrying `fileA` and a plural files array. -/
def postA : SlackPost := ⟨"11.22".data, "file_share".data, some fileA, some [fileC, fileD]⟩

/-- A `file_share` post with no legacy file object. -/
def postB : SlackPost := ⟨"33.44".data, "file_share".data, none, some [fileD]⟩

/-- A world where closing the output archive fails. -/
def envClose : Env := ⟨fun _ => none, none, [], fun _ => some [], true⟩

/-- The final state of running `envClose` over an empty archive. -/
def stateC : RunState := (fetchAttachments envClose []).state

/-! ### Facts about `splitSlash` and the channel-file test -/

theorem splitSlash_ne_nil (l : Str) : splitSlash l ≠ [] := by
  induction l with
  | nil => simp [splitSlash]
  | cons c rest ih =>
    by_cases hc : c = '/'
    · simp [splitSlash, hc]
    · cases h : splitSlash rest with
      | nil => simp [splitSlash, hc, h]
      | cons s ss => simp [splitSlash, hc, h]

theorem splitSlash_no_slash (l : Str) (h : '/' ∉ l) : splitSlash l = [l] := by
  induction l with
  | nil => rfl
  | cons c rest ih =>
    have hc : ¬ c = '/' := fun e => h (by simp [e])
    have hrest : '/' ∉ rest := fun m => h (List.mem_cons_of_mem _ m)
    simp only [splitSlash, if_neg hc, ih hrest]

theorem splitSlash_slash_cons (a b : Str) (h : '/' ∉ a) :
    splitSlash (a ++ '/' :: b) = a :: splitSlash b := by
  induction a with
  | nil => simp [splitSlash]
  | cons c rest ih =>
    have hc : ¬ c = '/' := fun e => h (by simp [e])
    have hrest : '/' ∉ rest := fun m => h (List.mem_cons_of_mem _ m)
    simp only [List.cons_append, splitSlash, List.append_eq, if_neg hc, ih hrest]

theorem eq_of_splitSlash_single (l y : Str) (h : splitSlash l = [y]) :
    l = y ∧ '/' ∉ l := by
  induction l generalizing y with
  | nil =>
    simp only [splitSlash] at h
    injection h with h1 _
    subst h1
    simp
  | cons c rest ih =>
    by_cases hc : c = '/'
    · subst hc
      rw [splitSlash, if_pos rfl] at h
      injection h with _ h2
      exact absurd h2 (splitSlash_ne_nil rest)
    · rw [splitSlash, if_neg hc] at h
      cases hr : splitSlash rest with
      | nil => exact absurd hr (splitSlash_ne_nil rest)
      | cons s ss =>
        rw [hr] at h
        injection h with h1 h2
        subst h2
        obtain ⟨hrs, hns⟩ := ih s hr
        subst hrs
        subst h1
        refine ⟨rfl, ?_⟩
        intro hm
        rcases List.mem_cons.mp hm with he | hm2
        · exact hc he.symm
        · exact hns hm2

theorem splitSlash_eq_pair (l x y : Str) (h : splitSlash l = [x, y]) :
    l = x ++ '/' :: y ∧ '/' ∉ x ∧ '/' ∉ y := by
  induction l generalizing x with
  | nil =>
    simp only [splitSlash] at h
    injection h with _ h2
    exact absurd h2.symm (List.cons_ne_nil y [])
  | cons c rest ih =>
    by_cases hc : c = '/'
    · subst hc
      rw [splitSlash, if_pos rfl] at h
      injection h with h1 h2
      obtain ⟨hr, hns⟩ := eq_of_splitSlash_single rest y h2
      subst h1
      subst hr
      exact ⟨rfl, by simp, hns⟩
    · rw [splitSlash, if_neg hc] at h
      cases hr : splitSlash rest with
      | nil => exact absurd hr (splitSlash_ne_nil rest)
      | cons s ss =>
        rw [hr] at h
        injection h with h1 h2
        have hpair : splitSlash rest = [s, y] := by rw [hr, h2]
        obtain ⟨hl, hx, hy⟩ := ih s hpair
        subst h1
        subst hl
        refine ⟨rfl, ?_, hy⟩
        intro hm
        rcases List.mem_cons.mp hm with he | hm2
        · exact hc he.symm
        · exact hx hm2

/-- Claim C3: an archive entry is handed to the channel-file parser exactly
when its name splits on `/` into two segments, the first not starting with
`__` and the second ending in `.json`; over a completed run, the names given
to the parser are precisely the input entry names passing this test. -/
theorem claim_c3 :
    (∀ env input s, fetchAttachments env input = .ok s →
        s.parsed = (input.map Prod.fst).filter isChannelFile) ∧
    (∀ nm : Str, isChannelFile nm = true ↔
      ∃ a b, nm = a ++ '/' :: b ∧ '/' ∉ a ∧ '/' ∉ b ∧
        List.isPrefixOf "__".data a = false ∧
        List.isSuffixOf ".json".data b = true) := by
  constructor
  · intro env input s h
    have main : ∀ (inp : List Entry) (s0 s1 : RunState),
        runFetch env inp s0 = .ok s1 →
        s1.parsed = s0.parsed ++ (inp.map Prod.fst).filter isChannelFile := by
      intro inp
      induction inp with
      | nil =>
        intro s0 s1 h0
        simp only [runFetch] at h0
        injection h0 with h0
        subst h0
        simp
      | cons e rest ih =>
        intro s0 s1 h0
        obtain ⟨nm, bytes⟩ := e
        simp only [runFetch] at h0
        by_cases hc : isChannelFile nm = true
        · rw [if_pos hc] at h0
          cases hp : processChannelFile env bytes with
          | none => rw [hp] at h0; cases h0
          | some out =>
            rw [hp] at h0
            have := ih _ _ h0
            simp only [List.map_cons, List.filter_cons, hc, if_true] at this ⊢
            rw [this]
            simp
        · rw [if_neg hc] at h0
          have := ih _ _ h0
          simp only [List.map_cons, List.filter_cons] at this ⊢
          rw [this]
          simp [hc]
    unfold fetchAttachments at h
    cases hr : runFetch env input initState with
    | fatal s' => rw [hr] at h; cases h
    | ok s' =>
      rw [hr] at h
      injection h with h'
      have hp := main input initState s' hr
      subst h'
      by_cases hc : env.closeFails <;> simp [hc, hp, initState]
  · intro nm
    constructor
    · intro h
      unfold isChannelFile at h
      cases hs : splitSlash nm with
      | nil => exact absurd hs (splitSlash_ne_nil nm)
      | cons a ss =>
        cases ss with
        | nil => rw [hs] at h; cases h
        | cons b ss2 =>
          cases ss2 with
          | nil =>
            rw [hs] at h
            simp only [Bool.and_eq_true, Bool.not_eq_true'] at h
            obtain ⟨hl, hp, hq⟩ := splitSlash_eq_pair nm a b hs
            exact ⟨a, b, hl, hp, hq, h.1, h.2⟩
          | cons z zs => rw [hs] at h; cases h
    · rintro ⟨a, b, rfl, hpa, hpb, h1, h2⟩
      unfold isChannelFile
      rw [splitSlash_slash_cons a b hpa]
      rw [splitSlash_no_slash b hpb]
      simp [h1, h2]

/-- Claim C3 witness: a concrete run in which `general/a.json` is parsed and
`c` is not, and the shape characterization at the name `general/a.json`. -/
theorem claim_c3_witness :
    stateW.parsed = (inputW.map Prod.fst).filter isChannelFile ∧
    (isChannelFile "general/a.json".data = true ↔
      ∃ a b, "general/a.json".data = a ++ '/' :: b ∧ '/' ∉ a ∧ '/' ∉ b ∧
        List.isPrefixOf "__".data a = false ∧
        List.isSuffixOf ".json".data b = true) :=
  ⟨claim_c3.1 envOkW inputW stateW (by decide), claim_c3.2 "general/a.json".data⟩

/-! ### Facts about descriptor resolution -/

theorem resolveFile_id (env : Env) (f : SlackFile) : (resolveFile env f).id = f.id := by
  unfold resolveFile
  cases foundLocal env f with
  | none => rfl
  | some nm => by_cases h : f.name.length < 1 <;> simp [h]

theorem resolveFile_of_found_none (env : Env) (f : SlackFile)
    (h : foundLocal env f = none) : resolveFile env f = f := by
  unfold resolveFile
  rw [h]

theorem resolveFile_of_name_ne (env : Env) (f : SlackFile) (h : f.name ≠ []) :
    resolveFile env f = f := by
  unfold resolveFile
  cases foundLocal env f with
  | none => rfl
  | some nm => simp [Nat.lt_one_iff, List.length_eq_zero, h]

theorem skipsFile_of_found (env : Env) (f : SlackFile) (nm : Str)
    (h : foundLocal env f = some nm) : skipsFile env f = false := by
  unfold skipsFile
  rw [h]
  rfl

theorem skipsFile_false_of_fields (env : Env) (f : SlackFile)
    (hid : f.id ≠ []) (hname : f.name ≠ [])
    (hurl : f.urlPrivate ≠ [] ∨ f.urlPrivateDownload ≠ []) :
    skipsFile env f = false := by
  unfold skipsFile
  cases hfl : foundLocal env f with
  | some nm => rfl
  | none =>
    rw [resolveFile_of_found_none env f hfl]
    rcases hurl with h | h
    · simp [Nat.lt_one_iff, List.length_eq_zero, hid, hname, List.length_pos.mpr h]
    · simp [Nat.lt_one_iff, List.length_eq_zero, hid, hname, List.length_pos.mpr h]

theorem localFallback_entries (env : Env) (f1 : SlackFile) (url : Str) :
    (localFallback env f1 url).entries = [(destPath f1, fallbackBytes env f1.id)] := by
  unfold localFallback fallbackBytes
  cases findLocalAttachment f1.id env.localDir with
  | none => rfl
  | some nm => cases h : lookupLocal nm env.localDir <;> simp [h]

theorem localFallback_reqs (env : Env) (f1 : SlackFile) (url : Str) :
    (localFallback env f1 url).reqs = [url] := by
  unfold localFallback
  cases findLocalAttachment f1.id env.localDir with
  | none => rfl
  | some nm => cases h : lookupLocal nm env.localDir <;> simp [h]

theorem processFile_entries_path (env : Env) (ts : Str) (f : SlackFile)
    (h : skipsFile env f = false) :
    (processFile env ts f).entries.map Prod.fst = [destPath (resolveFile env f)] := by
  unfold processFile
  rw [if_neg (by simp [h])]
  cases env.http (chooseUrl (resolveFile env f)) with
  | none => simp [localFallback_entries]
  | some p =>
    obtain ⟨st, body⟩ := p
    by_cases hst : (st == 200) = true
    · simp [hst]
    · rw [Bool.not_eq_true] at hst
      simp [hst, localFallback_entries]

theorem processFile_reqs (env : Env) (ts : Str) (f : SlackFile)
    (h : skipsFile env f = false) :
    (processFile env ts f).reqs = [chooseUrl (resolveFile env f)] := by
  unfold processFile
  rw [if_neg (by simp [h])]
  cases env.http (chooseUrl (resolveFile env f)) with
  | none => simp [localFallback_reqs]
  | some p =>
    obtain ⟨st, body⟩ := p
    by_cases hst : (st == 200) = true
    · simp [hst]
    · rw [Bool.not_eq_true] at hst
      simp [hst, localFallback_reqs]

/-! ### The display-name derivation (claim C5) -/

theorem stripIdDash_concat (fid rest : Str) :
    stripIdDash fid ((fid ++ ['-']) ++ rest) = rest := by
  unfold stripIdDash
  rw [if_pos (List.isPrefixOf_iff_prefix.mpr (List.prefix_append _ _))]
  exact List.drop_left _ _

theorem deriveName_concat (fid : Str) :
    deriveName fid ((fid ++ ['-']) ++ "My File!!.png".data) = "My_File__.png".data := by
  unfold deriveName
  rw [stripIdDash_concat]
  decide

/-- Claim C5 counterexample: for id `F1` and local file `F1-My File!!.png`
the code derives `My_File__.png` (each whitespace or punctuation character is
replaced by its own underscore), not `My_File.png` as claimed. -/
theorem claim_c5_counterexample :
    deriveName "F1".data "F1-My File!!.png".data = "My_File__.png".data ∧
    deriveName "F1".data "F1-My File!!.png".data ≠ "My_File.png".data := by
  constructor
  · decide
  · decide

/-- Claim C5 (amended): for every file descriptor with an empty display name
whose configured local directory holds exactly the file `<id>-My File!!.png`,
the attachment entry is created under the derived name `My_File__.png`: the
leading `<id>-` is stripped and every whitespace or punctuation character
outside the extension is replaced by an underscore, one per character. -/
theorem claim_c5 (env : Env) (ts : Str) (f : SlackFile) (bytes : Bytes)
    (hname : f.name = []) (hid : f.id ≠ [])
    (hdir : env.localDir = some [(f.id ++ "-My File!!.png".data, bytes)]) :
    (processFile env ts f).entries.map Prod.fst =
      ["__uploads/".data ++ f.id ++ "/".data ++ "My_File__.png".data] := by
  have hposid : 0 < f.id.length := List.length_pos.mpr hid
  have hpre : List.isPrefixOf f.id (f.id ++ "-My File!!.png".data) = true :=
    List.isPrefixOf_iff_prefix.mpr (List.prefix_append _ _)
  have hfind : findLocalAttachment f.id (some [(f.id ++ "-My File!!.png".data, bytes)]) =
      some (f.id ++ "-My File!!.png".data) := by
    unfold findLocalAttachment
    simp [hpre]
  have hfound : foundLocal env f = some (f.id ++ "-My File!!.png".data) := by
    unfold foundLocal
    rw [hdir, hfind]
    simp [hposid]
  have hres : resolveFile env f =
      { f with name := deriveName f.id (f.id ++ "-My File!!.png".data) } := by
    unfold resolveFile
    rw [hfound]
    simp [hname]
  have hshape : f.id ++ "-My File!!.png".data = (f.id ++ ['-']) ++ "My File!!.png".data := by
    rw [show ("-My File!!.png".data : Str) = '-' :: "My File!!.png".data from rfl]
    exact List.append_cons _ _ _
  rw [processFile_entries_path env ts f (skipsFile_of_found env f _ hfound), hres]
  unfold destPath
  rw [hshape, deriveName_concat]

/-- Claim C5 witness: the amended statement at the concrete descriptor
`fileB` in the world `envB`. -/
theorem claim_c5_witness :
    (processFile envB "ts".data fileB).entries.map Prod.fst =
      ["__uploads/".data ++ "F1".data ++ "/".data ++ "My_File__.png".data] :=
  claim_c5 envB "ts".data fileB [7, 8] (by decide) (by decide) (by decide)

/-! ### Download failure and the local fallback (claim C2) -/

theorem findLocalAttachment_some_eq (fileID : Str) (files : List (Str × Bytes)) :
    findLocalAttachment fileID (some files) =
      (files.find? (fun x => List.isPrefixOf fileID x.1)).map Prod.fst := by
  unfold findLocalAttachment
  cases h : files.find? (fun x => List.isPrefixOf fileID x.1) <;> simp [h]

theorem lookupLocal_some_eq (nm : Str) (files : List (Str × Bytes)) :
    lookupLocal nm (some files) = (files.find? (fun x => x.1 == nm)).map Prod.snd := by
  unfold lookupLocal
  cases h : files.find? (fun x => x.1 == nm) <;> simp [h]

theorem fallbackBytes_eq (env : Env) (fid nm : Str)
    (h : findLocalAttachment fid env.localDir = some nm) :
    fallbackBytes env fid = (lookupLocal nm env.localDir).getD [] := by
  unfold fallbackBytes
  rw [h]

theorem processFile_http_failed (env : Env) (ts : Str) (f : SlackFile)
    (hskip : skipsFile env f = false)
    (hfail : httpFailed env (chooseUrl (resolveFile env f))) :
    processFile env ts f =
      localFallback env (resolveFile env f) (chooseUrl (resolveFile env f)) := by
  unfold processFile
  rw [if_neg (by simp [hskip])]
  rcases hfail with h | ⟨st, body, h, hne⟩
  · rw [h]
  · have hb : (st == 200) = false := beq_eq_false_iff_ne.mpr hne
    rw [h]
    simp [hb]

/-- Claim C2: when the chosen download URL yields a network error or a
non-200 status for a descriptor that reached the download step, the
destination entry is filled with the local-fallback bytes: the contents of
the first prefix-matching local file when one exists, and nothing (the entry
stays zero-length, with a failure log and processing continuing) when the
fallback finds no match. -/
theorem claim_c2 (env : Env) (ts : Str) (f : SlackFile)
    (hskip : skipsFile env f = false)
    (hfail : httpFailed env (chooseUrl (resolveFile env f))) :
    (processFile env ts f).entries =
      [(destPath (resolveFile env f), fallbackBytes env f.id)] ∧
    (∀ nm, findLocalAttachment f.id env.localDir = some nm →
      ∃ b, lookupLocal nm env.localDir = some b ∧ fallbackBytes env f.id = b) ∧
    (findLocalAttachment f.id env.localDir = none →
      fallbackBytes env f.id = [] ∧
      (processFile env ts f).logs =
        [LogMsg.downloadFailedNoLocal (chooseUrl (resolveFile env f))]) := by
  have hloc := processFile_http_failed env ts f hskip hfail
  refine ⟨?_, ?_, ?_⟩
  · rw [hloc, localFallback_entries, resolveFile_id]
  · intro nm hfind
    cases hdir : env.localDir with
    | none =>
      rw [hdir] at hfind
      simp [findLocalAttachment] at hfind
    | some files =>
      rw [hdir, findLocalAttachment_some_eq] at hfind
      cases hf : files.find? (fun x => List.isPrefixOf f.id x.1) with
      | none => rw [hf] at hfind; cases hfind
      | some ent =>
        rw [hf] at hfind
        simp only [Option.map_some'] at hfind
        injection hfind with hnm
        subst hnm
        have hmem : ent ∈ files := List.mem_of_find?_eq_some hf
        have hsome : (files.find? (fun x => x.1 == ent.1)).isSome := by
          rw [List.find?_isSome]
          exact ⟨ent, hmem, by simp⟩
        obtain ⟨ent2, hent2⟩ := Option.isSome_iff_exists.mp hsome
        have hfind2 : findLocalAttachment f.id env.localDir = some ent.1 := by
          rw [hdir, findLocalAttachment_some_eq, hf]
          rfl
        refine ⟨ent2.2, ?_, ?_⟩
        · rw [lookupLocal_some_eq, hent2]
          rfl
        · rw [fallbackBytes_eq env f.id ent.1 hfind2, hdir, lookupLocal_some_eq, hent2]
          rfl
  · intro hnone
    have hfb : fallbackBytes env f.id = [] := by
      unfold fallbackBytes
      rw [hnone]
    refine ⟨hfb, ?_⟩
    rw [hloc]
    unfold localFallback
    rw [resolveFile_id, hnone]

/-- Claim C2 witness: for descriptor `fileA` in the world `envA` (downloads
answer 500, local directory `dirA`), the destination entry carries the
fallback bytes. -/
theorem claim_c2_witness :
    (processFile envA "ts".data fileA).entries =
      [(destPath (resolveFile envA fileA), fallbackBytes envA fileA.id)] :=
  (claim_c2 envA "ts".data fileA (by decide) (Or.inr ⟨500, [9], rfl, by decide⟩)).1

/-! ### Legacy file_share posts (claims C4 and C10) -/

/-- Claim C4: a `file_share` post with a legacy file object is processed as
exactly that one descriptor; a `file_share` post without one produces no
entries and a warning naming the post timestamp (so it is never treated as a
post with zero files, whose processing is silent). -/
theorem claim_c4 (env : Env) (post : SlackPost)
    (hsub : post.subtype = "file_share".data) :
    (∀ f, post.file = some f → processPost env post = processFile env post.ts f) ∧
    (post.file = none →
      processPost env post = ⟨[], [LogMsg.noFileProp post.ts], []⟩) := by
  constructor
  · intro f hf
    unfold processPost
    rw [if_pos hsub, hf]
    simp [processFiles, mergeOutcome, emptyOutcome]
  · intro hf
    unfold processPost
    rw [if_pos hsub, hf]

/-- Claim C4 witness: the two concrete `file_share` posts `postA` (with a
legacy file) and `postB` (without one). -/
theorem claim_c4_witness :
    processPost envBad postA = processFile envBad postA.ts fileA ∧
    processPost envBad postB = ⟨[], [LogMsg.noFileProp postB.ts], []⟩ :=
  ⟨(claim_c4 envBad postA rfl).1 fileA rfl, (claim_c4 envBad postB rfl).2 rfl⟩

/-- Claim C10: on a `file_share` post carrying a legacy file object, the
plural files array is discarded unconditionally — the post is processed
exactly as the singleton list of the legacy object, whatever `gs` held. -/
theorem claim_c10 (env : Env) (ts : Str) (f : SlackFile) (gs : List SlackFile) :
    processPost env ⟨ts, "file_share".data, some f, some gs⟩ = processFile env ts f := by
  unfold processPost
  rw [if_pos rfl]
  simp [processFiles, mergeOutcome, emptyOutcome]

/-! ### Skipping descriptors with missing fields (claim C6) -/

/-- Claim C6: a descriptor with no local match and a missing id, name, or
both URLs produces no `__uploads/...` entry, only a warning carrying the post
timestamp, and the remaining descriptors are still processed. -/
theorem claim_c6 (env : Env) (ts : Str) (f : SlackFile) (rest : List SlackFile)
    (hnoloc : foundLocal env f = none)
    (hmiss : f.id = [] ∨ f.name = [] ∨ (f.urlPrivate = [] ∧ f.urlPrivateDownload = [])) :
    processFile env ts f = ⟨[], [LogMsg.missingProps ts], []⟩ ∧
    (processFiles env ts (f :: rest)).entries = (processFiles env ts rest).entries ∧
    (processFiles env ts (f :: rest)).logs =
      LogMsg.missingProps ts :: (processFiles env ts rest).logs := by
  have hres := resolveFile_of_found_none env f hnoloc
  have hskip : skipsFile env f = true := by
    unfold skipsFile
    rw [hnoloc, hres]
    rcases hmiss with h | h | ⟨h1, h2⟩
    · simp [h]
    · simp [h]
    · simp [h1, h2]
  have hpf : processFile env ts f = ⟨[], [LogMsg.missingProps ts], []⟩ := by
    unfold processFile
    rw [if_pos (by simp [hskip])]
  exact ⟨hpf, by simp [processFiles, mergeOutcome, hpf],
    by simp [processFiles, mergeOutcome, hpf]⟩

/-- Claim C6 witness: the nameless, URL-less descriptor `fileC` with no local
directory configured, followed by the healthy descriptor `fileD`. -/
theorem claim_c6_witness :
    processFile envBad "ts".data fileC = ⟨[], [LogMsg.missingProps "ts".data], []⟩ ∧
    (processFiles envBad "ts".data (fileC :: [fileD])).entries =
      (processFiles envBad "ts".data [fileD]).entries ∧
    (processFiles envBad "ts".data (fileC :: [fileD])).logs =
      LogMsg.missingProps "ts".data :: (processFiles envBad "ts".data [fileD]).logs :=
  claim_c6 envBad "ts".data fileC [fileD] (by decide) (Or.inr (Or.inl rfl))

/-! ### Download-URL choice (claim C9) -/

/-- Claim C9: the URL actually requested is the download variant whenever it
is non-empty (in particular when both URL fields are present), and the plain
private URL otherwise. -/
theorem claim_c9 (env : Env) (ts : Str) (f : SlackFile)
    (hid : f.id ≠ []) (hname : f.name ≠ []) :
    (f.urlPrivateDownload ≠ [] → (processFile env ts f).reqs = [f.urlPrivateDownload]) ∧
    (f.urlPrivateDownload = [] → f.urlPrivate ≠ [] →
      (processFile env ts f).reqs = [f.urlPrivate]) := by
  have hres := resolveFile_of_name_ne env f hname
  constructor
  · intro hdl
    have hskip := skipsFile_false_of_fields env f hid hname (Or.inr hdl)
    rw [processFile_reqs env ts f hskip, hres]
    simp [chooseUrl, List.length_pos.mpr hdl]
  · intro hdl hpriv
    have hskip := skipsFile_false_of_fields env f hid hname (Or.inl hpriv)
    rw [processFile_reqs env ts f hskip, hres]
    simp [chooseUrl, hdl]

/-- Claim C9 witness: `fileD` (both URLs populated — the download URL wins)
and `fileE` (only the plain private URL). -/
theorem claim_c9_witness :
    (processFile envBad "ts".data fileD).reqs = [fileD.urlPrivateDownload] ∧
    (processFile envBad "ts".data fileE).reqs = [fileE.urlPrivate] :=
  ⟨(claim_c9 envBad "ts".data fileD (by decide) (by decide)).1 (by decide),
   (claim_c9 envBad "ts".data fileE (by decide) (by decide)).2 rfl (by decide)⟩

/-! ### Whole-run lemmas -/

theorem runFetch_cons_channel (env : Env) (nm : Str) (bytes : Bytes) (rest : List Entry)
    (s : RunState) (out : FileOutcome) (hc : isChannelFile nm = true)
    (hpc : processChannelFile env bytes = some out) :
    runFetch env ((nm, bytes) :: rest) s =
      runFetch env rest ⟨s.entries ++ [(nm, bytes)] ++ out.entries, s.logs ++ out.logs,
        s.reqs ++ out.reqs, s.parsed ++ [nm]⟩ := by
  rw [runFetch, if_pos hc, hpc]

theorem runFetch_cons_channel_fatal (env : Env) (nm : Str) (bytes : Bytes)
    (rest : List Entry) (s : RunState) (hc : isChannelFile nm = true)
    (hpc : processChannelFile env bytes = none) :
    runFetch env ((nm, bytes) :: rest) s =
      .fatal ⟨s.entries ++ [(nm, bytes)], s.logs, s.reqs, s.parsed ++ [nm]⟩ := by
  rw [runFetch, if_pos hc, hpc]

theorem runFetch_cons_other (env : Env) (nm : Str) (bytes : Bytes) (rest : List Entry)
    (s : RunState) (hc : ¬ isChannelFile nm = true) :
    runFetch env ((nm, bytes) :: rest) s =
      runFetch env rest ⟨s.entries ++ [(nm, bytes)], s.logs, s.reqs, s.parsed⟩ := by
  rw [runFetch, if_neg hc]

theorem runFetch_ok_of_parses (env : Env) (input : List Entry) (s0 : RunState)
    (h : ∀ e ∈ input, isChannelFile e.1 = true → (env.parse e.2).isSome = true) :
    ∃ s, runFetch env input s0 = .ok s ∧
      (∀ x ∈ s0.entries, x ∈ s.entries) ∧ (∀ e ∈ input, e ∈ s.entries) := by
  induction input generalizing s0 with
  | nil => exact ⟨s0, rfl, fun x hx => hx, by simp⟩
  | cons e rest ih =>
    obtain ⟨nm, bytes⟩ := e
    have hrest : ∀ e ∈ rest, isChannelFile e.1 = true → (env.parse e.2).isSome = true :=
      fun e he => h e (List.mem_cons_of_mem _ he)
    by_cases hc : isChannelFile nm = true
    · have hp : (env.parse bytes).isSome = true := h (nm, bytes) (by simp) hc
      obtain ⟨posts, hposts⟩ := Option.isSome_iff_exists.mp hp
      have hpc : processChannelFile env bytes = some (processPosts env posts) := by
        unfold processChannelFile
        rw [hposts]
      obtain ⟨s, hs, hmono, hall⟩ :=
        ih ⟨s0.entries ++ [(nm, bytes)] ++ (processPosts env posts).entries,
            s0.logs ++ (processPosts env posts).logs,
            s0.reqs ++ (processPosts env posts).reqs, s0.parsed ++ [nm]⟩ hrest
      refine ⟨s, ?_, ?_, ?_⟩
      · rw [runFetch_cons_channel env nm bytes rest s0 (processPosts env posts) hc hpc]
        exact hs
      · intro x hx
        exact hmono x (by simp [hx])
      · intro e he
        rcases List.mem_cons.mp he with he1 | he2
        · subst he1
          exact hmono _ (by simp)
        · exact hall e he2
    · obtain ⟨s, hs, hmono, hall⟩ :=
        ih ⟨s0.entries ++ [(nm, bytes)], s0.logs, s0.reqs, s0.parsed⟩ hrest
      refine ⟨s, ?_, ?_, ?_⟩
      · rw [runFetch_cons_other env nm bytes rest s0 hc]
        exact hs
      · intro x hx
        exact hmono x (by simp [hx])
      · intro e he
        rcases List.mem_cons.mp he with he1 | he2
        · subst he1
          exact hmono _ (by simp)
        · exact hall e he2

theorem runFetch_append (env : Env) (pre rest : List Entry) (s0 s : RunState)
    (h : runFetch env pre s0 = .ok s) :
    runFetch env (pre ++ rest) s0 = runFetch env rest s := by
  induction pre generalizing s0 with
  | nil =>
    simp only [runFetch] at h
    injection h with h
    subst h
    rfl
  | cons e tail ih =>
    obtain ⟨nm, bytes⟩ := e
    by_cases hc : isChannelFile nm = true
    · cases hpc : processChannelFile env bytes with
      | none =>
        rw [runFetch_cons_channel_fatal env nm bytes tail s0 hc hpc] at h
        cases h
      | some out =>
        rw [runFetch_cons_channel env nm bytes tail s0 out hc hpc] at h
        rw [List.cons_append, runFetch_cons_channel env nm bytes (tail ++ rest) s0 out hc hpc]
        exact ih _ h
    · rw [runFetch_cons_other env nm bytes tail s0 hc] at h
      rw [List.cons_append, runFetch_cons_other env nm bytes (tail ++ rest) s0 hc]
      exact ih _ h

/-! ### Copy fidelity (claim C1) -/

/-- Claim C1 counterexample: in the archive `inputBad` the first entry is a
channel file whose bytes do not parse, so the run aborts and the second
entry `c` is never copied to the output — copy fidelity is not independent
of attachment processing. -/
theorem claim_c1_counterexample :
    ("c".data, ([1] : Bytes)) ∈ inputBad ∧
    ("c".data, ([1] : Bytes)) ∉ (fetchAttachments envBad inputBad).state.entries := by
  decide

/-- Claim C1 (amended): when every channel file of the input parses, the run
succeeds and every input entry appears with identical bytes in the output,
regardless of attachment download outcomes; entries after a fatal
channel-JSON parse failure are not guaranteed to be copied. -/
theorem claim_c1 (env : Env) (input : List Entry)
    (h : ∀ e ∈ input, isChannelFile e.1 = true → (env.parse e.2).isSome = true) :
    ∃ s, fetchAttachments env input = .ok s ∧ ∀ e ∈ input, e ∈ s.entries := by
  obtain ⟨s, hs, _, hall⟩ := runFetch_ok_of_parses env input initState h
  unfold fetchAttachments
  simp only [hs]
  by_cases hc : env.closeFails
  · refine ⟨{ s with logs := s.logs ++ [LogMsg.closeFailed] }, ?_, hall⟩
    rw [if_pos hc]
  · refine ⟨s, ?_, hall⟩
    rw [if_neg hc]

/-- Claim C1 witness: the amended statement at the concrete archive `inputW`
in the world `envOkW`. -/
theorem claim_c1_witness :
    ∃ s, fetchAttachments envOkW inputW = .ok s ∧ ∀ e ∈ inputW, e ∈ s.entries :=
  claim_c1 envOkW inputW (by decide)

/-! ### Fatal parse failure (claim C7) -/

/-- Claim C7: a channel file whose bytes do not parse as a post list makes
the run fatal (exit code 1): the output archive holds exactly the entries
written before the failure plus the offending copy, and nothing from the
entries after it. -/
theorem claim_c7 (env : Env) (pre : List Entry) (nm : Str) (bad : Bytes)
    (post : List Entry) (hch : isChannelFile nm = true) (hbad : env.parse bad = none)
    (hpre : ∀ e ∈ pre, isChannelFile e.1 = true → (env.parse e.2).isSome = true) :
    ∃ s, runFetch env pre initState = .ok s ∧
      fetchAttachments env (pre ++ (nm, bad) :: post) =
        .fatal ⟨s.entries ++ [(nm, bad)], s.logs, s.reqs, s.parsed ++ [nm]⟩ ∧
      exitCode (fetchAttachments env (pre ++ (nm, bad) :: post)) = 1 := by
  obtain ⟨s, hs, _, _⟩ := runFetch_ok_of_parses env pre initState hpre
  have hpc : processChannelFile env bad = none := by
    unfold processChannelFile
    rw [hbad]
  have hrun : runFetch env (pre ++ (nm, bad) :: post) initState =
      .fatal ⟨s.entries ++ [(nm, bad)], s.logs, s.reqs, s.parsed ++ [nm]⟩ := by
    rw [runFetch_append env pre ((nm, bad) :: post) initState s hs,
      runFetch_cons_channel_fatal env nm bad post s hch hpc]
  have hfat : fetchAttachments env (pre ++ (nm, bad) :: post) =
      .fatal ⟨s.entries ++ [(nm, bad)], s.logs, s.reqs, s.parsed ++ [nm]⟩ := by
    unfold fetchAttachments
    rw [hrun]
  exact ⟨s, hs, hfat, by rw [hfat]; rfl⟩

/-- Claim C7 witness: a malformed channel file between two opaque entries in
the world `envBad`. -/
theorem claim_c7_witness :
    ∃ s, runFetch envBad [("c".data, [1])] initState = .ok s ∧
      fetchAttachments envBad
          ([("c".data, [1])] ++ ("a/b.json".data, [0]) :: [("d".data, [2])]) =
        .fatal ⟨s.entries ++ [("a/b.json".data, [0])], s.logs, s.reqs,
          s.parsed ++ ["a/b.json".data]⟩ ∧
      exitCode (fetchAttachments envBad
          ([("c".data, [1])] ++ ("a/b.json".data, [0]) :: [("d".data, [2])])) = 1 :=
  claim_c7 envBad [("c".data, [1])] "a/b.json".data [0] [("d".data, [2])]
    (by decide) rfl (by decide)

/-! ### Closing the output archive (claim C8) -/

theorem processFile_close (env : Env) (ts : Str) (f : SlackFile) :
    processFile { env with closeFails := false } ts f = processFile env ts f := rfl

theorem processFiles_close (env : Env) (ts : Str) (fs : List SlackFile) :
    processFiles { env with closeFails := false } ts fs = processFiles env ts fs := by
  induction fs with
  | nil => rfl
  | cons f rest ih => simp only [processFiles, processFile_close, ih]

theorem processPost_close (env : Env) (p : SlackPost) :
    processPost { env with closeFails := false } p = processPost env p := by
  unfold processPost
  by_cases h : p.subtype = "file_share".data
  · rw [if_pos h, if_pos h]
    cases p.file <;> simp [processFiles_close]
  · rw [if_neg h, if_neg h]
    cases p.files <;> simp [processFiles_close]

theorem processPosts_close (env : Env) (ps : List SlackPost) :
    processPosts { env with closeFails := false } ps = processPosts env ps := by
  induction ps with
  | nil => rfl
  | cons p rest ih => simp only [processPosts, processPost_close, ih]

theorem processChannelFile_close (env : Env) (bytes : Bytes) :
    processChannelFile { env with closeFails := false } bytes =
      processChannelFile env bytes := by
  unfold processChannelFile
  have hall : ∀ o : Option (List SlackPost),
      (match o with
        | none => none
        | some posts => some (processPosts { env with closeFails := false } posts)) =
      (match o with
        | none => none
        | some posts => some (processPosts env posts)) := by
    intro o
    cases o <;> simp [processPosts_close]
  exact hall (env.parse bytes)

theorem runFetch_close (env : Env) (input : List Entry) (s : RunState) :
    runFetch { env with closeFails := false } input s = runFetch env input s := by
  induction input generalizing s with
  | nil => rfl
  | cons e rest ih =>
    obtain ⟨nm, bytes⟩ := e
    by_cases hc : isChannelFile nm = true
    · cases hpc : processChannelFile env bytes with
      | none =>
        rw [runFetch_cons_channel_fatal env nm bytes rest s hc hpc,
          runFetch_cons_channel_fatal { env with closeFails := false } nm bytes rest s hc
            (by rw [processChannelFile_close, hpc])]
      | some out =>
        rw [runFetch_cons_channel env nm bytes rest s out hc hpc,
          runFetch_cons_channel { env with closeFails := false } nm bytes rest s out hc
            (by rw [processChannelFile_close, hpc]), ih]
    · rw [runFetch_cons_other env nm bytes rest s hc,
        runFetch_cons_other { env with closeFails := false } nm bytes rest s hc, ih]

/-- Claim C8 counterexample: in the world `envClose` closing the output
archive fails and the failure is logged, yet the run still exits with code
0 — not the claimed non-zero exit. -/
theorem claim_c8_counterexample :
    envClose.closeFails = true ∧
    (fetchAttachments envClose []).state.logs = [LogMsg.closeFailed] ∧
    exitCode (fetchAttachments envClose []) = 0 := by
  decide

/-- Claim C8 (amended): a failure to close the output archive is only
logged: the exit code never depends on it, and a successful run in a world
where closing fails records the failure in its log. -/
theorem claim_c8 (env : Env) (input : List Entry) :
    exitCode (fetchAttachments env input) =
      exitCode (fetchAttachments { env with closeFails := false } input) ∧
    (∀ s, fetchAttachments env input = .ok s → env.closeFails = true →
      LogMsg.closeFailed ∈ s.logs) := by
  constructor
  · unfold fetchAttachments
    rw [runFetch_close]
    cases runFetch env input initState <;> rfl
  · intro s h hc
    unfold fetchAttachments at h
    cases hr : runFetch env input initState with
    | fatal t => rw [hr] at h; cases h
    | ok t =>
      rw [hr] at h
      injection h with h'
      subst h'
      simp [hc]

/-- Claim C8 witness: the amended statement in the world `envClose` over an
empty archive. -/
theorem claim_c8_witness :
    exitCode (fetchAttachments envClose []) =
      exitCode (fetchAttachments { envClose with closeFails := false } []) ∧
    LogMsg.closeFailed ∈ stateC.logs :=
  ⟨(claim_c8 envClose []).1, (claim_c8 envClose []).2 stateC (by decide) rfl⟩

end SlackExport
